import Mathlib

/-!
Verification of the xflags argument parser (Go) against its specification.

The definitions below are a shallow embedding of the current source variant:
the `argParser` state machine (tokens, accumulated flag lookup table,
subcommand table, positional queue, occurrence counters), the token
`normalize` pass, the builder entry point `Var`, the structural validator
`Command.Err`, and the value sinks from `value.go`.

Modelling conventions, stated once here:
* Go maps are embedded as association lists with insert-overwrite
  (`ainsert`) and first-match lookup (`alookup`).  Go's map iteration order
  is unspecified; the list order fixes one admissible order.  Every theorem
  proved about an iteration (`parseEnvVars`) is order-insensitive.
* The mutable `Value` sinks (externally owned cells mutated by `Set`) are
  embedded as a store mapping a flag's identity (`Flag.id`, standing for the
  Go pointer) to the list of raw strings accepted by `Set`, in call order.
  The concrete Go sinks are folds over that list (`boolResult`,
  `stringResult` below mirror `boolValue.Set` / `stringValue.Set`).
* The process environment is passed explicitly as an association list; Go's
  `os.LookupEnv` becomes `alookup env`.
* The modelled sink kinds are `boolValue` (the only one with
  `IsBoolFlag() == true` among those used here), `stringValue` and
  `stringSliceValue`; flags carry no validator (`Flag.Set` with a nil
  `Validate` reduces to `Value.Set`, the path every claim exercises).
* Errors are embedded as an inductive carrying the same classification and
  identifying payload (offending token / flag rendering) that
  `newArgErr` records.
-/

set_option autoImplicit false

namespace Xflags

/-- Association-list lookup, first match wins; embeds a Go map read. -/
def alookup {κ α : Type} [DecidableEq κ] : List (κ × α) → κ → Option α
  | [], _ => none
  | (k, v) :: rest, key => if k = key then some v else alookup rest key

/-- Association-list insert with overwrite in place; embeds a Go map write. -/
def ainsert {κ α : Type} [DecidableEq κ] : List (κ × α) → κ → α → List (κ × α)
  | [], key, v => [(key, v)]
  | (k, w) :: rest, key, v =>
    if k = key then (key, v) :: rest else (k, w) :: ainsert rest key v

/-- Kind of a `Value` sink (value.go); determines `IsBoolFlag` and whether
`Set` can reject its raw string. -/
inductive SinkKind : Type where
  | boolSink
  | stringSink
  | stringsSink
deriving DecidableEq

/-- Embeds Go `strconv.ParseBool`, used by `boolValue.Set`. -/
def parseBool (s : String) : Option Bool :=
  if s = "1" ∨ s = "t" ∨ s = "T" ∨ s = "true" ∨ s = "TRUE" ∨ s = "True" then
    some true
  else if s = "0" ∨ s = "f" ∨ s = "F" ∨ s = "false" ∨ s = "FALSE" ∨ s = "False" then
    some false
  else
    none

/-- Embeds `isBoolValue` (value.go): only `boolValue` (and bit fields, not
modelled) report `IsBoolFlag() == true`. -/
def isBoolValue : SinkKind → Bool
  | .boolSink => true
  | .stringSink => false
  | .stringsSink => false

/-- Whether `Value.Set` succeeds on the raw string, per sink kind:
`boolValue.Set` runs `strconv.ParseBool`; `stringValue.Set` and
`stringSliceValue.Set` always succeed. -/
def valueSetOk : SinkKind → String → Bool
  | .boolSink, s => (parseBool s).isSome
  | .stringSink, _ => true
  | .stringsSink, _ => true

/-- The bound `bool` variable after a sequence of accepted `boolValue.Set`
calls: each call overwrites with the parsed value. -/
def boolResult (dflt : Bool) (log : List String) : Bool :=
  log.foldl (fun b s => (parseBool s).getD b) dflt

/-- The bound `string` variable after a sequence of `stringValue.Set` calls:
each call overwrites. -/
def stringResult (dflt : String) (log : List String) : String :=
  log.foldl (fun _ s => s) dflt

/-- Embeds the `Flag` struct (flag.go).  `id` stands for the Go pointer
identity of the flag (and of its externally-owned `Value` sink); `kind`
stands for the dynamic type of `Value`.  No validator is modelled: `Flag.Set`
with a nil `Validate` is exactly `Value.Set`. -/
structure Flag : Type where
  id : Nat
  Name : String := ""
  ShortName : String := ""
  Usage : String := ""
  Positional : Bool := false
  MinCount : Int := 0
  MaxCount : Int := 0
  Hidden : Bool := false
  EnvVar : String := ""
  kind : SinkKind
deriving DecidableEq

/-- Embeds `Flag.name` (flag.go): the long name, else the short name. -/
def Flag.name (c : Flag) : String :=
  if c.Name ≠ "" then c.Name else c.ShortName

/-- Embeds `Flag.String` (flag.go): how a flag is rendered in messages. -/
def Flag.render (c : Flag) : String :=
  if c.Positional then c.Name.toUpper
  else if c.Name ≠ "" then "--" ++ c.Name
  else if c.ShortName ≠ "" then "-" ++ c.ShortName
  else "unknown"

/-- Embeds the `FlagGroup` struct (flag.go). -/
structure FlagGroup : Type where
  Name : String
  Usage : String
  Flags : List Flag

/-- Embeds the `Command` struct (command.go): name, terminator support,
flag groups and subcommands.  The `Parent` back-reference, formatter and
handler play no role in parsing and are omitted. -/
inductive Command : Type where
  | mk (Name : String) (WithTerminator : Bool) (FlagGroups : List FlagGroup)
      (Subcommands : List Command)

def Command.Name : Command → String
  | .mk n _ _ _ => n

def Command.WithTerminator : Command → Bool
  | .mk _ w _ _ => w

def Command.FlagGroups : Command → List FlagGroup
  | .mk _ _ g _ => g

def Command.Subcommands : Command → List Command
  | .mk _ _ _ s => s

/-- All flags of a command in declaration order, flattening the groups the
way every `for _, group := ...; for _, flag := range group.Flags` loop in
the source walks them. -/
def cmdFlags (c : Command) : List Flag :=
  c.FlagGroups.foldr (fun g acc => g.Flags ++ acc) []

/-- Classification error raised while building or checking a command tree,
as produced by `Command.Err` (command.go). -/
inductive StructErr : Type where
  | mixedSubs (cmdName : String)
  | posAfterUnbounded (cmdName : String)
  | duplicateFlag (cmdName : String) (key : String)
deriving DecidableEq

/-- Loop body of `Command.Err` (command.go): walks the declared flags in
order carrying the name table and the unbounded-positional marker. -/
def errLoop (cmdName : String) (hasSubs : Bool) :
    List Flag → List (String × Flag) → Bool → Option StructErr
  | [], _, _ => none
  | flag :: rest, m, hasUnbounded =>
    if flag.Positional && hasSubs then
      some (.mixedSubs cmdName)
    else if flag.Positional && hasUnbounded then
      some (.posAfterUnbounded cmdName)
    else
      let hu := hasUnbounded || (flag.Positional && flag.MaxCount == 0)
      if flag.Name ≠ "" && (alookup m ("--" ++ flag.Name)).isSome then
        some (.duplicateFlag cmdName ("--" ++ flag.Name))
      else
        let m1 := if flag.Name ≠ "" then ainsert m ("--" ++ flag.Name) flag else m
        if flag.ShortName ≠ "" && (alookup m1 ("-" ++ flag.ShortName)).isSome then
          some (.duplicateFlag cmdName ("-" ++ flag.ShortName))
        else
          let m2 :=
            if flag.ShortName ≠ "" then ainsert m1 ("-" ++ flag.ShortName) flag else m1
          errLoop cmdName hasSubs rest m2 hu

/-- Embeds `Command.Err` (command.go): the structural validation run by
`Command()` before any parse.  `none` means the command is accepted. -/
def Command.Err (c : Command) : Option StructErr :=
  errLoop c.Name (decide (0 < c.Subcommands.length)) (cmdFlags c) [] false

/-- Embeds `Var` (xflags.go): builds a flag with default arity `[0, 1]`;
a one-character name is moved into the short name. -/
def Var (kind : SinkKind) (id : Nat) (name usage : String) : Flag :=
  let flag : Flag :=
    { id := id, Name := name, Usage := usage, MinCount := 0, MaxCount := 1,
      kind := kind }
  if name.length = 1 then
    { flag with ShortName := flag.Name, Name := "" }
  else
    flag

/-- Embeds the typed helper `Bool` (xflags.go), which delegates to `Var`
with a `boolValue` sink. -/
def BoolFlag (id : Nat) (name usage : String) : Flag :=
  Var .boolSink id name usage

/-- Embeds the typed helper `String` (xflags.go), which delegates to `Var`
with a `stringValue` sink. -/
def StringFlag (id : Nat) (name usage : String) : Flag :=
  Var .stringSink id name usage

/-- The literal that terminates parsing of all remaining arguments. -/
def terminator : String := "--"

/-- Embeds `isSingleDash` (parser.go): length at least two, a dash, then a
non-dash. -/
def isSingleDash (arg : String) : Bool :=
  match arg.data with
  | c0 :: c1 :: _ => c0 == '-' && c1 != '-'
  | _ => false

/-- Embeds `isDoubleDash` (parser.go): length at least three starting with
two dashes. -/
def isDoubleDash (arg : String) : Bool :=
  match arg.data with
  | c0 :: c1 :: _ :: _ => c0 == '-' && c1 == '-'
  | _ => false

/-- Embeds `isPositional` (parser.go). -/
def isPositional (arg : String) : Bool :=
  !isSingleDash arg && !isDoubleDash arg

/-- Search for `'='` in a long-flag token starting at byte index 3,
returning the part before it and the part after it; embeds the inner loop
of `normalize` for double-dash tokens. -/
def splitLongFlag (pre : List Char) : List Char → Option (List Char × List Char)
  | [] => none
  | c :: cs => if c = '=' then some (pre, cs) else splitLongFlag (pre ++ [c]) cs

/-- Embeds `normalize` (parser.go): splits compound key-value tokens into
two tokens; once the terminator is seen (and enabled) the remaining tokens,
the terminator included, are copied through verbatim. -/
def normalize : List String → Bool → List String
  | [], _ => []
  | arg :: rest, withTerminator =>
    if withTerminator && arg == terminator then
      arg :: rest
    else if isSingleDash arg then
      let head := String.mk (arg.data.take 2)
      match arg.data.drop 2 with
      | [] => head :: normalize rest withTerminator
      | '=' :: tail => head :: String.mk tail :: normalize rest withTerminator
      | tail => head :: String.mk tail :: normalize rest withTerminator
    else if isDoubleDash arg then
      match splitLongFlag (arg.data.take 3) (arg.data.drop 3) with
      | some (pre, post) =>
        String.mk pre :: String.mk post :: normalize rest withTerminator
      | none => arg :: normalize rest withTerminator
    else
      arg :: normalize rest withTerminator

/-- Parse-time error, as classified by `newArgErr` / `HelpError`
(errors.go); each constructor keeps the identifying payload the Go error
records (offending token, or the flag's `String()` rendering). -/
inductive ParseErr : Type where
  | helpErr (cmdName : String)
  | unrecognizedArgument (tok : String)
  | unrecognizedCommand (tok : String)
  | unexpectedPositional (tok : String)
  | noValue (tok : String)
  | missingArgument (flagStr : String)
  | tooMany (flagStr : String)
  | setFailed (flagStr : String) (value : String)
deriving DecidableEq

/-- The sink store: flag identity to the raw strings accepted by `Set`. -/
abbrev Store := List (Nat × List String)

/-- Log of a single sink. -/
def storeGet (σ : Store) (i : Nat) : List String :=
  (alookup σ i).getD []

/-- Record one accepted `Set` call on a sink. -/
def storePush (σ : Store) (i : Nat) (s : String) : Store :=
  ainsert σ i (storeGet σ i ++ [s])

/-- Embeds the `argParser` struct (parser.go). -/
structure ParserState : Type where
  tokens : List String
  args : List String
  cmd : Command
  isTerminated : Bool
  flagsByName : List (String × Flag)
  subcommandsByName : List (String × Command)
  flagsSeen : List (String × Nat)
  positionals : List Flag
  store : Store

/-- Occurrence count read, `c.flagsSeen[name]`: missing keys read as 0. -/
def getCount (m : List (String × Nat)) (key : String) : Nat :=
  (alookup m key).getD 0

/-- Register one flag in the lookup table, long key then short key; the loop
body of `setCommand`. -/
def registerFlag (m : List (String × Flag)) (f : Flag) : List (String × Flag) :=
  let m1 := if f.Name ≠ "" then ainsert m ("--" ++ f.Name) f else m
  if f.ShortName ≠ "" then ainsert m1 ("-" ++ f.ShortName) f else m1

/-- Embeds `argParser.setCommand` (parser.go): descends into `cmd`,
accumulating the flag lookup table while rebuilding the positional queue and
the subcommand table. -/
def setCommand (c : ParserState) (cmd : Command) : ParserState :=
  { c with
    cmd := cmd
    positionals := (cmdFlags cmd).filter (·.Positional)
    flagsByName := (cmdFlags cmd).foldl registerFlag c.flagsByName
    subcommandsByName :=
      cmd.Subcommands.foldl (fun m sc => ainsert m sc.Name sc) [] }

/-- Embeds `argParser.observe` (parser.go): bump the per-name occurrence
counter and return the new count. -/
def observe (c : ParserState) (flag : Flag) : ParserState × Nat :=
  let seen := ainsert c.flagsSeen flag.name (getCount c.flagsSeen flag.name + 1)
  ({ c with flagsSeen := seen }, getCount seen flag.name)

/-- Embeds `argParser.setFlag` (parser.go): feed the raw string to the
flag's sink, classifying a rejection as a flag-scoped argument error. -/
def setFlag (c : ParserState) (flag : Flag) (value : String) :
    Except ParseErr ParserState :=
  if valueSetOk flag.kind value then
    .ok { c with store := storePush c.store flag.id value }
  else
    .error (.setFailed flag.render value)

/-- Embeds `argParser.dispatchPositional` (parser.go). -/
def dispatchPositional (c : ParserState) (token : String) :
    Except ParseErr ParserState :=
  match c.positionals with
  | flag :: restPos =>
    let (c, n) := observe c flag
    let c :=
      if 0 < flag.MaxCount ∧ (n : Int) = flag.MaxCount then
        { c with positionals := restPos }
      else c
    setFlag c flag token
  | [] =>
    if c.cmd.Subcommands.length = 0 then
      .error (.unexpectedPositional token)
    else
      match alookup c.subcommandsByName token with
      | some cmd => .ok (setCommand c cmd)
      | none => .error (.unrecognizedCommand token)

/-- Embeds `argParser.dispatchRegular` (parser.go): direct lookup of a
flag-shaped token; booleans are set to the literal `"true"` without
consuming another token; other flags consume the next token unless it is
absent or flag-shaped. -/
def dispatchRegular (c : ParserState) (token : String) :
    Except ParseErr ParserState :=
  match alookup c.flagsByName token with
  | none => .error (.unrecognizedArgument token)
  | some flag =>
    let (c, _) := observe c flag
    if isBoolValue flag.kind then
      setFlag c flag "true"
    else
      match c.tokens with
      | [] => .error (.noValue token)
      | value :: rest =>
        if isPositional value then
          setFlag { c with tokens := rest } flag value
        else
          .error (.noValue token)

/-- Embeds `argParser.dispatch` (parser.go); the state already holds the
tokens that follow `token`. -/
def dispatch (c : ParserState) (token : String) : Except ParseErr ParserState :=
  if c.isTerminated then
    .ok { c with args := c.args ++ [token] }
  else if token == terminator && c.cmd.WithTerminator then
    .ok { c with isTerminated := true }
  else if token == "-h" || token == "--help" then
    .error (.helpErr c.cmd.Name)
  else if isPositional token then
    dispatchPositional c token
  else
    dispatchRegular c token

/-- The token-consumption loop of `argParser.Parse`.  Each iteration
consumes at least one token, so running it with the token count as fuel is
the Go loop exactly: fuel cannot run out while tokens remain. -/
def parseLoop : Nat → ParserState → Except ParseErr ParserState
  | 0, c => .ok c
  | fuel + 1, c =>
    match c.tokens with
    | [] => .ok c
    | tok :: rest =>
      match dispatch { c with tokens := rest } tok with
      | .error e => .error e
      | .ok c2 => parseLoop fuel c2

/-- Loop body of `argParser.parseEnvVars` (parser.go), walking the entries
of the accumulated flag lookup table. -/
def parseEnvEntries (env : List (String × String)) :
    List (String × Flag) → ParserState → Except ParseErr ParserState
  | [], c => .ok c
  | (_, flag) :: rest, c =>
    if flag.EnvVar = "" then
      parseEnvEntries env rest c
    else if 0 < getCount c.flagsSeen flag.name then
      parseEnvEntries env rest c
    else
      match alookup env flag.EnvVar with
      | none => parseEnvEntries env rest c
      | some s =>
        let (c, _) := observe c flag
        match setFlag c flag s with
        | .error e => .error e
        | .ok c => parseEnvEntries env rest c

/-- Embeds `argParser.parseEnvVars` (parser.go): environment fallback for
every entry of the flag lookup table with an environment variable name and
no occurrence so far. -/
def parseEnvVars (env : List (String × String)) (c : ParserState) :
    Except ParseErr ParserState :=
  parseEnvEntries env c.flagsByName c

/-- Loop body of `argParser.checkNArgs` (parser.go) over the final
command's declared flags. -/
def checkFlags (seen : List (String × Nat)) : List Flag → Option ParseErr
  | [] => none
  | flag :: rest =>
    if 0 < flag.MinCount ∧ (getCount seen flag.name : Int) < flag.MinCount then
      some (.missingArgument flag.render)
    else if 0 < flag.MaxCount ∧ flag.MaxCount < (getCount seen flag.name : Int) then
      some (.tooMany flag.render)
    else
      checkFlags seen rest

/-- Embeds `argParser.checkNArgs` (parser.go): arity validation of the
final resolved command's flags. -/
def checkNArgs (c : ParserState) : Option ParseErr :=
  checkFlags c.flagsSeen (cmdFlags c.cmd)

/-- Embeds `newArgParser` (parser.go): normalize against the root command's
terminator setting, then enter the root scope. -/
def newArgParser (cmd : Command) (tokens : List String) : ParserState :=
  setCommand
    { tokens := normalize tokens cmd.WithTerminator
      args := []
      cmd := cmd
      isTerminated := false
      flagsByName := []
      subcommandsByName := []
      flagsSeen := []
      positionals := []
      store := [] }
    cmd

/-- Embeds `argParser.Parse` followed by the two reconciliation passes; the
whole final parser state is returned so that theorems can observe the
resolved command, the trailing args, the occurrence counters and the sinks. -/
def Parse (cmd : Command) (env : List (String × String)) (args : List String) :
    Except ParseErr ParserState :=
  let c := newArgParser cmd args
  match parseLoop c.tokens.length c with
  | .error e => .error e
  | .ok c =>
    match parseEnvVars env c with
    | .error e => .error e
    | .ok c =>
      match checkNArgs c with
      | some e => .error e
      | none => .ok c

/-- Resolved command name of a parse outcome. -/
def parseCmdName (r : Except ParseErr ParserState) : Option String :=
  match r with
  | .ok c => some c.cmd.Name
  | .error _ => none

/-- Trailing arguments of a parse outcome. -/
def parseArgs (r : Except ParseErr ParserState) : Option (List String) :=
  match r with
  | .ok c => some c.args
  | .error _ => none

/-- Occurrence count of a key in a parse outcome. -/
def parseSeen (r : Except ParseErr ParserState) (key : String) : Option Nat :=
  match r with
  | .ok c => some (getCount c.flagsSeen key)
  | .error _ => none

/-- Sink log of a flag identity in a parse outcome. -/
def parseLog (r : Except ParseErr ParserState) (i : Nat) : Option (List String) :=
  match r with
  | .ok c => some (storeGet c.store i)
  | .error _ => none

/-- Occurrence count of a key, or the parse error. -/
def seenOrErr (r : Except ParseErr ParserState) (key : String) :
    Except ParseErr Nat :=
  match r with
  | .ok c => .ok (getCount c.flagsSeen key)
  | .error e => .error e

/-- Error of a failed parse outcome. -/
def parseFail (r : Except ParseErr ParserState) : Option ParseErr :=
  match r with
  | .ok _ => none
  | .error e => some e

/-- Lookup keys a flag contributes to the flag table (`setCommand`,
`Command.Err`): its long key and its short key, when non-empty. -/
def flagKeys (f : Flag) : List String :=
  (if f.Name ≠ "" then ["--" ++ f.Name] else []) ++
    (if f.ShortName ≠ "" then ["-" ++ f.ShortName] else [])

/-- Default flag group list, mirroring the builder's implicit "options"
group that `NewCommand` installs. -/
def grp (fs : List Flag) : List FlagGroup := [⟨"options", "Options", fs⟩]

/-- Subcommand with no flags of its own, used by the scope fixtures. -/
def subCmd : Command := .mk "sub" false (grp []) []

/-- Root-level boolean flag `--verbose`. -/
def verboseFlag : Flag := { id := 1, Name := "verbose", MaxCount := 1, kind := .boolSink }

/-- Root command declaring `--verbose` and the subcommand `sub`. -/
def c1root : Command := .mk "root" false (grp [verboseFlag]) [subCmd]

/-- Root-level string flag `--cache` bound to environment variable `CACHE`. -/
def cacheFlag : Flag :=
  { id := 2, Name := "cache", MaxCount := 1, EnvVar := "CACHE", kind := .stringSink }

/-- Root command declaring the environment-bound `--cache` and subcommand
`sub`. -/
def c2root : Command := .mk "root2" false (grp [cacheFlag]) [subCmd]

/-- Boolean flag `--flag`. -/
def boolFooFlag : Flag := { id := 3, Name := "flag", MaxCount := 1, kind := .boolSink }

/-- Command with the single boolean flag `--flag`, no positionals, no
subcommands. -/
def c3cmd : Command := .mk "c3" false (grp [boolFooFlag]) []

/-- Boolean flag `-v`. -/
def vFlag : Flag := { id := 4, ShortName := "v", MaxCount := 1, kind := .boolSink }

/-- Terminator-enabled command with the single boolean flag `-v` and no
subcommands. -/
def c4cmd : Command := .mk "c4" true (grp [vFlag]) []

/-- Unbounded positional flag `SRC`. -/
def srcFlag : Flag := { id := 10, Name := "src", Positional := true, kind := .stringsSink }

/-- Bounded positional flag `DST`. -/
def dstFlag : Flag :=
  { id := 11, Name := "dst", Positional := true, MaxCount := 1, kind := .stringSink }

/-- Command declaring an unbounded positional before another positional. -/
def c7bad : Command := .mk "c7bad" false (grp [srcFlag, dstFlag]) []

/-- Command declaring a bounded positional before an unbounded one. -/
def c7ok : Command := .mk "c7ok" false (grp [dstFlag, srcFlag]) []

/-- Boolean flag with long name `foo`, short name `f`, environment variable
`FOO` and arity `[mi, ma]`. -/
def fooFlag (mi ma : Int) : Flag :=
  { id := 0, Name := "foo", ShortName := "f", MinCount := mi, MaxCount := ma,
    EnvVar := "FOO", kind := .boolSink }

/-- Command with `fooFlag` as its only flag. -/
def c9cmd (mi ma : Int) : Command := .mk "c9" false (grp [fooFlag mi ma]) []

/-- Flag table of `c9cmd`: the same flag under its two keys. -/
def c9binds (mi ma : Int) : List (String × Flag) :=
  [("--foo", fooFlag mi ma), ("-f", fooFlag mi ma)]

/-- Parser state over `c9cmd`, parametrised by the parts the loop mutates. -/
def c9st (mi ma : Int) (tokens : List String) (m : List (String × Nat))
    (σ : Store) : ParserState :=
  { tokens := tokens, args := [], cmd := c9cmd mi ma, isTerminated := false,
    flagsByName := c9binds mi ma, subcommandsByName := [], flagsSeen := m,
    positionals := [], store := σ }

/-- Required string flag `--req` with arity exactly 1. -/
def reqFlag : Flag :=
  { id := 5, Name := "req", MinCount := 1, MaxCount := 1, kind := .stringSink }

/-- Command whose only flag is the required `--req`. -/
def c6cmd : Command := .mk "c6" false (grp [reqFlag]) []

/-- Command with a single flag built by `Var`. -/
def c10cmd (kind : SinkKind) (id : Nat) (name usage : String) : Command :=
  .mk "c10" false (grp [Var kind id name usage]) []

/-- String flag `--etest` / `-e` bound to environment variable `ETEST`. -/
def envFlag : Flag :=
  { id := 6, Name := "etest", ShortName := "e", MaxCount := 1, EnvVar := "ETEST",
    kind := .stringSink }

/-- Command declaring only `envFlag`. -/
def cenv : Command := .mk "cenv" false (grp [envFlag]) []

/-- Fresh parser state over `cenv`: `envFlag` is registered under both keys. -/
def cenvStart : ParserState := newArgParser cenv []

/-- State after environment fallback fills `envFlag` once. -/
def cenvEnd : ParserState :=
  { cenvStart with flagsSeen := [("etest", 1)], store := [(6, ["val"])] }

/-- Parser state over the `c2root` tree after the loop consumed `sub`. -/
def c2mid : ParserState :=
  { tokens := [], args := [], cmd := subCmd, isTerminated := false,
    flagsByName := [("--cache", cacheFlag)], subcommandsByName := [],
    flagsSeen := [], positionals := [], store := [] }

/-- State `c2mid` after `--cache` is filled from the environment. -/
def c2end (s : String) : ParserState :=
  { c2mid with flagsSeen := [("cache", 1)], store := [(2, [s])] }

/-- Expected combined occurrence total for `fooFlag` over a parse: the
command-line occurrences when there are any, otherwise one occurrence when
the environment supplies `FOO`, otherwise zero. -/
def c9total (env : List (String × String)) (tokens : List String) : Nat :=
  if tokens.length ≠ 0 then tokens.length
  else
    match alookup env "FOO" with
    | some _ => 1
    | none => 0

theorem alookup_ainsert {κ α : Type} [DecidableEq κ] (m : List (κ × α))
    (k : κ) (v : α) (key : κ) :
    alookup (ainsert m k v) key = if k = key then some v else alookup m key := by
  induction m with
  | nil => simp [ainsert, alookup]
  | cons e rest ih =>
    obtain ⟨k', w⟩ := e
    by_cases h1 : k' = k
    · subst h1
      by_cases h2 : k' = key <;> simp [ainsert, alookup, h2]
    · by_cases h2 : k' = key
      · subst h2
        simp [ainsert, alookup, h1, Ne.symm h1]
      · simp [ainsert, alookup, h1, h2, ih]

theorem getCount_ainsert (m : List (String × Nat)) (k : String) (v : Nat)
    (key : String) :
    getCount (ainsert m k v) key = if k = key then v else getCount m key := by
  by_cases h : k = key <;> simp [getCount, alookup_ainsert, h]

theorem storeGet_storePush (σ : Store) (i : Nat) (s : String) (j : Nat) :
    storeGet (storePush σ i s) j =
      if i = j then storeGet σ i ++ [s] else storeGet σ j := by
  by_cases h : i = j <;> simp [storeGet, storePush, alookup_ainsert, h]

/-- Claim C3: with a boolean flag `--flag` (and nothing else declared),
the code parses `["--flag=false"]` by setting the flag to the literal
`"true"` and then rejecting the split-off token `"false"` as an unexpected
positional argument; the parse fails instead of supplying `"false"` to the
sink. -/
theorem bool_eq_false_rejected :
    Parse c3cmd [] ["--flag=false"] = .error (.unexpectedPositional "false") := rfl

/-- Claim C4: with terminator mode enabled and the boolean flag `-v`,
parsing `["-v", "--", "-x", "--y", ""]` succeeds with the bound boolean
true and trailing arguments exactly `["-x", "--y", ""]`; the first `--` is
consumed, everything after it passes through verbatim. -/
theorem terminator_passthrough :
    parseArgs (Parse c4cmd [] ["-v", "--", "-x", "--y", ""]) =
        some ["-x", "--y", ""] ∧
      (parseLog (Parse c4cmd [] ["-v", "--", "-x", "--y", ""]) 4).map
          (boolResult false) = some true ∧
      parseCmdName (Parse c4cmd [] ["-v", "--", "-x", "--y", ""]) = some "c4" := by
  refine ⟨rfl, rfl, rfl⟩

/-- Claim C1, counterexample: after descending into `sub`, the flag
`--verbose` declared only by the ancestor `root` is still matched by direct
name lookup — the parse succeeds and records one occurrence instead of
failing with an unrecognized-argument error. -/
theorem ancestor_flag_still_matched :
    parseSeen (Parse c1root [] ["sub", "--verbose"]) "verbose" = some 1 ∧
      parseCmdName (Parse c1root [] ["sub", "--verbose"]) = some "sub" := by
  refine ⟨rfl, rfl⟩

/-- Claim C2, counterexample: the flag `--cache` is declared only by the
ancestor `root2`, yet after resolving the subcommand `sub` it is filled
from its environment variable `CACHE`. -/
theorem ancestor_env_filled :
    parseLog (Parse c2root [("CACHE", "on")] ["sub"]) 2 = some ["on"] ∧
      parseCmdName (Parse c2root [("CACHE", "on")] ["sub"]) = some "sub" := by
  refine ⟨rfl, rfl⟩

/-- Claim C8, counterexample: the one-character token `"-"`, and the token
`"--"` when terminator mode is disabled, are classified positional-shaped,
not flag-shaped: dispatched against a command with no flags and no
subcommands they fail as unexpected positional arguments, and
`isPositional` accepts both. -/
theorem bare_dash_positional :
    isPositional "-" = true ∧ isPositional "--" = true ∧
      dispatch (newArgParser (Command.mk "c8" false (grp []) []) []) "-" =
        .error (.unexpectedPositional "-") ∧
      dispatch (newArgParser (Command.mk "c8" false (grp []) []) []) "--" =
        .error (.unexpectedPositional "--") := by
  refine ⟨rfl, rfl, rfl, rfl⟩

/-- Claim C8, amended: a token whose first byte is a dash is classified
positional-shaped exactly when it is the bare `"-"` or the bare `"--"`;
every other dash-initiated token is flag-shaped, with no numeric-literal
special-casing. -/
theorem dash_classification (t : String) (h : t.data.head? = some '-') :
    isPositional t = true ↔ (t = "-" ∨ t = "--") := by
  obtain ⟨data⟩ := t
  cases data with
  | nil => simp at h
  | cons c0 rest =>
    simp [List.head?] at h
    subst h
    cases rest with
    | nil => decide
    | cons c1 rest1 =>
      by_cases h1 : c1 = '-'
      · subst h1
        cases rest1 with
        | nil => decide
        | cons c2 rest2 =>
          constructor
          · intro hp
            exfalso
            simp [isPositional, isDoubleDash] at hp
          · intro hor
            exfalso
            rcases hor with he | he
            · have hd := congrArg String.data he
              rw [show ("-" : String).data = ['-'] from rfl] at hd
              simp at hd
            · have hd := congrArg String.data he
              rw [show ("--" : String).data = ['-', '-'] from rfl] at hd
              simp at hd
      · constructor
        · intro hp
          exfalso
          simp [isPositional, isSingleDash, h1] at hp
        · intro hor
          exfalso
          rcases hor with he | he
          · have hd := congrArg String.data he
            rw [show ("-" : String).data = ['-'] from rfl] at hd
            simp at hd
          · have hd := congrArg String.data he
            rw [show ("--" : String).data = ['-', '-'] from rfl] at hd
            simp at hd
            exact h1 hd.1

theorem dash_classification_w :
    ("-x").data.head? = some '-' ∧
      (isPositional "-x" = true ↔ ("-x" = "-" ∨ "-x" = "--")) :=
  ⟨by decide, dash_classification "-x" (by decide)⟩

theorem alookup_ainsert_ne {κ α : Type} [DecidableEq κ] (m : List (κ × α))
    (k : κ) (v : α) (key : κ) (h : k ≠ key) :
    alookup (ainsert m k v) key = alookup m key := by
  simp [alookup_ainsert, h]

theorem alookup_ainsert_self {κ α : Type} [DecidableEq κ] (m : List (κ × α))
    (k : κ) (v : α) :
    alookup (ainsert m k v) k = some v := by
  simp [alookup_ainsert]

theorem alookup_registerFlag (m : List (String × Flag)) (f : Flag) (key : String)
    (h : key ∉ flagKeys f) :
    alookup (registerFlag m f) key = alookup m key := by
  have hn : f.Name ≠ "" → "--" ++ f.Name ≠ key := by
    intro hN hk
    exact h (by simp [flagKeys, hN, hk])
  have hs : f.ShortName ≠ "" → "-" ++ f.ShortName ≠ key := by
    intro hS hk
    exact h (by simp [flagKeys, hS, hk])
  unfold registerFlag
  by_cases h1 : f.Name = "" <;> by_cases h2 : f.ShortName = "" <;>
    simp [h1, h2]
  · exact alookup_ainsert_ne _ _ _ _ (hs h2)
  · exact alookup_ainsert_ne _ _ _ _ (hn h1)
  · rw [alookup_ainsert_ne _ _ _ _ (hs h2), alookup_ainsert_ne _ _ _ _ (hn h1)]

theorem alookup_foldl_registerFlag (key : String) :
    ∀ (fs : List Flag) (m : List (String × Flag)),
      (∀ f ∈ fs, key ∉ flagKeys f) →
      alookup (fs.foldl registerFlag m) key = alookup m key := by
  intro fs
  induction fs with
  | nil => intro m _; rfl
  | cons f rest ih =>
    intro m h
    rw [List.foldl_cons, ih _ (fun g hg => h g (List.mem_cons_of_mem f hg)),
      alookup_registerFlag _ _ _ (h f (List.mem_cons_self f rest))]

theorem dispatchRegular_unrecognized (c : ParserState) (tok : String) :
    dispatchRegular c tok = .error (.unrecognizedArgument tok) ↔
      alookup c.flagsByName tok = none := by
  constructor
  · intro hres
    cases hlk : alookup c.flagsByName tok with
    | none => rfl
    | some flag =>
      exfalso
      rw [dispatchRegular, hlk] at hres
      by_cases hb : isBoolValue flag.kind
      · simp [hb, setFlag] at hres
        split at hres <;> simp at hres
      · simp [hb] at hres
        split at hres
        · simp at hres
        · split at hres
          · simp [setFlag] at hres
            split at hres <;> simp at hres
          · simp at hres
  · intro hlk
    simp [dispatchRegular, hlk]

/-- Claim C1, amended: descending into a subcommand accumulates the flag
lookup table instead of rebuilding it — a binding whose key is not
re-declared by the new scope is preserved, so ancestor flags remain matched
by name; a flag-shaped token fails with an unrecognized-argument error
exactly when it matches no flag of any scope entered so far. -/
theorem flag_lookup_accumulates (c : ParserState) (cmd : Command)
    (key tok : String) (hkey : ∀ f ∈ cmdFlags cmd, key ∉ flagKeys f) :
    alookup (setCommand c cmd).flagsByName key = alookup c.flagsByName key ∧
      (dispatchRegular c tok = .error (.unrecognizedArgument tok) ↔
        alookup c.flagsByName tok = none) := by
  refine ⟨?_, dispatchRegular_unrecognized c tok⟩
  exact alookup_foldl_registerFlag key (cmdFlags cmd) c.flagsByName hkey

theorem flag_lookup_accumulates_w :
    (∀ f ∈ cmdFlags subCmd, "--verbose" ∉ flagKeys f) ∧
      (alookup (setCommand (newArgParser c1root []) subCmd).flagsByName
          "--verbose" =
        alookup (newArgParser c1root []).flagsByName "--verbose" ∧
      (dispatchRegular (newArgParser c1root []) "--nope" =
          .error (.unrecognizedArgument "--nope") ↔
        alookup (newArgParser c1root []).flagsByName "--nope" = none)) :=
  ⟨by decide, flag_lookup_accumulates (newArgParser c1root []) subCmd
    "--verbose" "--nope" (by decide)⟩

theorem checkFlags_none_iff (seen : List (String × Nat)) :
    ∀ flags : List Flag,
      checkFlags seen flags = none ↔
        ∀ f ∈ flags,
          (0 < f.MinCount → f.MinCount ≤ (getCount seen f.name : Int)) ∧
          (0 < f.MaxCount → (getCount seen f.name : Int) ≤ f.MaxCount) := by
  intro flags
  induction flags with
  | nil => simp [checkFlags]
  | cons f rest ih =>
    rw [checkFlags]
    by_cases h1 : 0 < f.MinCount ∧ (getCount seen f.name : Int) < f.MinCount
    · rw [if_pos h1]
      constructor
      · intro hc
        exact absurd hc (by simp)
      · intro hall
        exact absurd ((hall f (by simp)).1 h1.1) (by omega)
    · rw [if_neg h1]
      by_cases h2 : 0 < f.MaxCount ∧ f.MaxCount < (getCount seen f.name : Int)
      · rw [if_pos h2]
        constructor
        · intro hc
          exact absurd hc (by simp)
        · intro hall
          exact absurd ((hall f (by simp)).2 h2.1) (by omega)
      · rw [if_neg h2, ih]
        push_neg at h1 h2
        constructor
        · intro hrest g hg
          rcases List.mem_cons.mp hg with rfl | hg2
          · exact ⟨fun hm => by have := h1 hm; omega,
              fun hm => by have := h2 hm; omega⟩
          · exact hrest g hg2
        · intro hall g hg
          exact hall g (List.mem_cons_of_mem f hg)

theorem checkFlags_some (seen : List (String × Nat)) :
    ∀ (flags : List Flag) (e : ParseErr),
      checkFlags seen flags = some e →
      ∃ f ∈ flags,
        (e = .missingArgument f.render ∧ 0 < f.MinCount ∧
            (getCount seen f.name : Int) < f.MinCount) ∨
        (e = .tooMany f.render ∧ 0 < f.MaxCount ∧
            f.MaxCount < (getCount seen f.name : Int)) := by
  intro flags
  induction flags with
  | nil =>
    intro e he
    simp [checkFlags] at he
  | cons f rest ih =>
    intro e he
    rw [checkFlags] at he
    by_cases h1 : 0 < f.MinCount ∧ (getCount seen f.name : Int) < f.MinCount
    · rw [if_pos h1] at he
      exact ⟨f, by simp, Or.inl ⟨(Option.some.inj he).symm, h1.1, h1.2⟩⟩
    · rw [if_neg h1] at he
      by_cases h2 : 0 < f.MaxCount ∧ f.MaxCount < (getCount seen f.name : Int)
      · rw [if_pos h2] at he
        exact ⟨f, by simp, Or.inr ⟨(Option.some.inj he).symm, h2.1, h2.2⟩⟩
      · rw [if_neg h2] at he
        obtain ⟨g, hg, hcase⟩ := ih e he
        exact ⟨g, List.mem_cons_of_mem f hg, hcase⟩

/-- Claim C6: the reconciler checks every flag of the final resolved
command: it passes exactly when every flag's occurrence count is at least
`MinCount` when `MinCount` is positive and at most `MaxCount` when
`MaxCount` is positive (`MaxCount == 0` imposes no upper bound); a failure
is a missing-argument or declared-too-many-times error naming a flag that
violates the corresponding bound. -/
theorem arity_check_sound (c : ParserState) :
    (checkNArgs c = none ↔
      ∀ f ∈ cmdFlags c.cmd,
        (0 < f.MinCount → f.MinCount ≤ (getCount c.flagsSeen f.name : Int)) ∧
        (0 < f.MaxCount → (getCount c.flagsSeen f.name : Int) ≤ f.MaxCount)) ∧
    (∀ e, checkNArgs c = some e →
      ∃ f ∈ cmdFlags c.cmd,
        (e = .missingArgument f.render ∧ 0 < f.MinCount ∧
            (getCount c.flagsSeen f.name : Int) < f.MinCount) ∨
        (e = .tooMany f.render ∧ 0 < f.MaxCount ∧
            f.MaxCount < (getCount c.flagsSeen f.name : Int))) :=
  ⟨checkFlags_none_iff _ _, fun e => checkFlags_some _ _ e⟩

theorem arity_check_sound_w :
    ∃ f ∈ cmdFlags (newArgParser c6cmd []).cmd,
      ((ParseErr.missingArgument "--req") = .missingArgument f.render ∧
          0 < f.MinCount ∧
          (getCount (newArgParser c6cmd []).flagsSeen f.name : Int) <
            f.MinCount) ∨
      ((ParseErr.missingArgument "--req") = .tooMany f.render ∧
          0 < f.MaxCount ∧
          f.MaxCount < (getCount (newArgParser c6cmd []).flagsSeen f.name : Int)) :=
  (arity_check_sound (newArgParser c6cmd [])).2 (.missingArgument "--req") rfl

theorem errLoop_unbounded_stuck (cmdName : String) (hasSubs : Bool) :
    ∀ (flags : List Flag) (m : List (String × Flag)),
      (∃ g ∈ flags, g.Positional = true) →
      errLoop cmdName hasSubs flags m true ≠ none := by
  intro flags
  induction flags with
  | nil =>
    intro m h
    simp at h
  | cons flag rest ih =>
    intro m h
    by_cases hp : flag.Positional = true
    · cases hasSubs <;> simp [errLoop, hp]
    · rw [Bool.not_eq_true] at hp
      obtain ⟨g, hg, hgp⟩ := h
      rcases List.mem_cons.mp hg with rfl | hg2
      · rw [hgp] at hp
        cases hp
      · intro hcontra
        simp only [errLoop, hp, Bool.false_and, Bool.false_eq_true, if_false,
          Bool.true_or] at hcontra
        repeat' split at hcontra
        all_goals
          first
            | exact Option.noConfusion hcontra
            | exact ih _ ⟨g, hg2, hgp⟩ hcontra

theorem errLoop_pos_after_unbounded (cmdName : String) (hasSubs : Bool) :
    ∀ (l : List Flag) (f : Flag) (rest : List Flag) (m : List (String × Flag))
      (hu : Bool),
      f.Positional = true → f.MaxCount = 0 →
      (∃ g ∈ rest, g.Positional = true) →
      errLoop cmdName hasSubs (l ++ f :: rest) m hu ≠ none := by
  intro l
  induction l with
  | nil =>
    intro f rest m hu hfp hfm hg
    rw [List.nil_append]
    cases hasSubs
    · cases hu
      · intro hcontra
        simp only [errLoop, hfp, hfm, Bool.and_false, Bool.false_eq_true,
          if_false, Bool.true_and, Bool.false_or, beq_self_eq_true] at hcontra
        repeat' split at hcontra
        all_goals
          first
            | exact Option.noConfusion hcontra
            | exact errLoop_unbounded_stuck cmdName false rest _ hg hcontra
      · simp [errLoop, hfp]
    · simp [errLoop, hfp]
  | cons hFlag l ih =>
    intro f rest m hu hfp hfm hg
    rw [List.cons_append]
    intro hcontra
    simp only [errLoop] at hcontra
    repeat' split at hcontra
    all_goals
      first
        | exact Option.noConfusion hcontra
        | exact ih f rest _ _ hfp hfm hg hcontra

/-- Claim C7: build-time structural validation of positional ordering — a
positional flag declared anywhere after an unbounded (`MaxCount == 0`)
positional flag makes `Command.Err` reject the command (the check run at
construction, before any parse); in particular the unbounded-then-positional
fixture is rejected while the bounded-then-unbounded fixture is accepted. -/
theorem positional_ordering :
    (∀ (cmd : Command) (l : List Flag) (f : Flag) (rest : List Flag),
        cmdFlags cmd = l ++ f :: rest → f.Positional = true → f.MaxCount = 0 →
        (∃ g ∈ rest, g.Positional = true) →
        Command.Err cmd ≠ none) ∧
      Command.Err c7bad = some (.posAfterUnbounded "c7bad") ∧
      Command.Err c7ok = none := by
  refine ⟨?_, rfl, rfl⟩
  intro cmd l f rest hflags hfp hfm hg
  rw [Command.Err, hflags]
  exact errLoop_pos_after_unbounded _ _ l f rest [] false hfp hfm hg

theorem positional_ordering_w :
    cmdFlags c7bad = [] ++ srcFlag :: [dstFlag] ∧ srcFlag.Positional = true ∧
      srcFlag.MaxCount = 0 ∧ (∃ g ∈ [dstFlag], g.Positional = true) ∧
      Command.Err c7bad ≠ none :=
  ⟨rfl, rfl, rfl, by decide,
    positional_ordering.1 c7bad [] srcFlag [dstFlag] rfl rfl rfl (by decide)⟩

theorem envEntries_all_skip (env : List (String × String)) :
    ∀ (entries : List (String × Flag)) (c : ParserState),
      (∀ e ∈ entries, e.2.EnvVar = "" ∨ 0 < getCount c.flagsSeen e.2.name ∨
        alookup env e.2.EnvVar = none) →
      parseEnvEntries env entries c = .ok c := by
  intro entries
  induction entries with
  | nil =>
    intro c _
    rfl
  | cons e rest ih =>
    intro c h
    have hrest := fun x hx => h x (List.mem_cons_of_mem e hx)
    rw [parseEnvEntries]
    by_cases h1 : e.2.EnvVar = ""
    · rw [if_pos h1]
      exact ih c hrest
    · rw [if_neg h1]
      by_cases h2 : 0 < getCount c.flagsSeen e.2.name
      · rw [if_pos h2]
        exact ih c hrest
      · rw [if_neg h2]
        rcases h e (List.mem_cons_self e rest) with h3 | h3 | h3
        · exact absurd h3 h1
        · exact absurd h3 h2
        · rw [h3]
          exact ih c hrest

theorem envEntries_preserve (env : List (String × String)) (f : Flag) :
    ∀ (entries : List (String × Flag)) (c c' : ParserState),
      (∀ e ∈ entries, e.2.name ≠ f.name → e.2.id ≠ f.id) →
      0 < getCount c.flagsSeen f.name →
      parseEnvEntries env entries c = .ok c' →
      storeGet c'.store f.id = storeGet c.store f.id ∧
      getCount c'.flagsSeen f.name = getCount c.flagsSeen f.name := by
  intro entries
  induction entries with
  | nil =>
    intro c c' _ _ hrun
    rw [parseEnvEntries] at hrun
    cases hrun
    exact ⟨rfl, rfl⟩
  | cons e rest ih =>
    intro c c' hids hpos hrun
    have hrest := fun x hx => hids x (List.mem_cons_of_mem e hx)
    rw [parseEnvEntries] at hrun
    by_cases h1 : e.2.EnvVar = ""
    · rw [if_pos h1] at hrun
      exact ih c c' hrest hpos hrun
    · rw [if_neg h1] at hrun
      by_cases h2 : 0 < getCount c.flagsSeen e.2.name
      · rw [if_pos h2] at hrun
        exact ih c c' hrest hpos hrun
      · rw [if_neg h2] at hrun
        have hne : e.2.name ≠ f.name := fun hEq => h2 (hEq ▸ hpos)
        have hid : e.2.id ≠ f.id := hids e (List.mem_cons_self e rest) hne
        cases henv : alookup env e.2.EnvVar with
        | none =>
          rw [henv] at hrun
          exact ih c c' hrest hpos hrun
        | some s =>
          rw [henv] at hrun
          simp only [observe, setFlag] at hrun
          by_cases hset : valueSetOk e.2.kind s = true
          · rw [if_pos hset] at hrun
            simp only at hrun
            have hcnt2 :
                getCount (ainsert c.flagsSeen e.2.name
                    (getCount c.flagsSeen e.2.name + 1)) f.name =
                  getCount c.flagsSeen f.name := by
              rw [getCount_ainsert, if_neg hne]
            have hst2 :
                storeGet (storePush c.store e.2.id s) f.id =
                  storeGet c.store f.id := by
              rw [storeGet_storePush, if_neg hid]
            obtain ⟨ha, hb⟩ := ih _ c' hrest (by simpa [hcnt2] using hpos) hrun
            refine ⟨?_, ?_⟩
            · rw [ha]
              exact hst2
            · rw [hb]
              exact hcnt2
          · rw [if_neg hset] at hrun
            simp only at hrun
            exact Except.noConfusion hrun

theorem envEntries_fallback_once (env : List (String × String)) (f : Flag)
    (s : String) (hs : alookup env f.EnvVar = some s) (henv : f.EnvVar ≠ "") :
    ∀ (entries : List (String × Flag)) (c c' : ParserState),
      (∀ e ∈ entries, if e.2.name = f.name then e.2 = f else e.2.id ≠ f.id) →
      getCount c.flagsSeen f.name = 0 →
      f ∈ entries.map Prod.snd →
      parseEnvEntries env entries c = .ok c' →
      storeGet c'.store f.id = storeGet c.store f.id ++ [s] ∧
      getCount c'.flagsSeen f.name = 1 := by
  intro entries
  induction entries with
  | nil =>
    intro c c' _ _ hmem
    simp at hmem
  | cons e rest ih =>
    intro c c' hids hzero hmem hrun
    have hrest : ∀ x ∈ rest, if x.2.name = f.name then x.2 = f else x.2.id ≠ f.id :=
      fun x hx => hids x (List.mem_cons_of_mem e hx)
    rw [parseEnvEntries] at hrun
    by_cases hname : e.2.name = f.name
    · have hef : e.2 = f := by
        have h := hids e (List.mem_cons_self e rest)
        rwa [if_pos hname] at h
      rw [hef, if_neg henv] at hrun
      have hnotpos : ¬ 0 < getCount c.flagsSeen f.name := by
        rw [hzero]
        exact lt_irrefl 0
      rw [if_neg hnotpos, hs] at hrun
      simp only [observe, setFlag] at hrun
      by_cases hset : valueSetOk f.kind s = true
      · rw [if_pos hset] at hrun
        simp only at hrun
        have hids2 : ∀ x ∈ rest, x.2.name ≠ f.name → x.2.id ≠ f.id := by
          intro x hx hne
          have h := hrest x hx
          rwa [if_neg hne] at h
        have hcnt2 :
            getCount (ainsert c.flagsSeen f.name
                (getCount c.flagsSeen f.name + 1)) f.name = 1 := by
          rw [getCount_ainsert, if_pos rfl, hzero]
        have hpos2 :
            0 < getCount (ainsert c.flagsSeen f.name
              (getCount c.flagsSeen f.name + 1)) f.name := by
          rw [hcnt2]
          exact Nat.zero_lt_one
        obtain ⟨ha, hb⟩ := envEntries_preserve env f rest _ c' hids2 hpos2 hrun
        refine ⟨?_, ?_⟩
        · rw [ha, storeGet_storePush, if_pos rfl]
        · rw [hb, hcnt2]
      · rw [if_neg hset] at hrun
        simp only at hrun
        exact Except.noConfusion hrun
    · have hid : e.2.id ≠ f.id := by
        have h := hids e (List.mem_cons_self e rest)
        rwa [if_neg hname] at h
      have hmem2 : f ∈ rest.map Prod.snd := by
        rw [List.map_cons] at hmem
        rcases List.mem_cons.mp hmem with heq | h2
        · exact absurd (show e.2.name = f.name by rw [heq]) hname
        · exact h2
      by_cases h1 : e.2.EnvVar = ""
      · rw [if_pos h1] at hrun
        exact ih c c' hrest hzero hmem2 hrun
      · rw [if_neg h1] at hrun
        by_cases h2 : 0 < getCount c.flagsSeen e.2.name
        · rw [if_pos h2] at hrun
          exact ih c c' hrest hzero hmem2 hrun
        · rw [if_neg h2] at hrun
          cases henvE : alookup env e.2.EnvVar with
          | none =>
            rw [henvE] at hrun
            exact ih c c' hrest hzero hmem2 hrun
          | some sE =>
            rw [henvE] at hrun
            simp only [observe, setFlag] at hrun
            by_cases hset : valueSetOk e.2.kind sE = true
            · rw [if_pos hset] at hrun
              simp only at hrun
              have hz2 :
                  getCount (ainsert c.flagsSeen e.2.name
                      (getCount c.flagsSeen e.2.name + 1)) f.name = 0 := by
                rw [getCount_ainsert, if_neg hname, hzero]
              obtain ⟨ha, hb⟩ := ih _ c' hrest hz2 hmem2 hrun
              refine ⟨?_, hb⟩
              rw [ha, storeGet_storePush, if_neg hid]
            · rw [if_neg hset] at hrun
              simp only at hrun
              exact Except.noConfusion hrun

/-- Claim C5: for a flag with a non-empty environment variable name
registered in the flag lookup table (under one or two keys): with zero
recorded occurrences and the variable present, reconciliation feeds its sink
from the environment exactly once and records exactly one occurrence; with
at least one command-line occurrence, the environment is not consulted and
the sink and counter are left untouched. -/
theorem env_fallback_once (env : List (String × String)) (f : Flag)
    (c c' : ParserState)
    (hnames : ∀ e ∈ c.flagsByName,
      if e.2.name = f.name then e.2 = f else e.2.id ≠ f.id)
    (henv : f.EnvVar ≠ "")
    (hrun : parseEnvVars env c = .ok c') :
    (∀ s, getCount c.flagsSeen f.name = 0 → alookup env f.EnvVar = some s →
      f ∈ c.flagsByName.map Prod.snd →
      storeGet c'.store f.id = storeGet c.store f.id ++ [s] ∧
      getCount c'.flagsSeen f.name = 1) ∧
    (0 < getCount c.flagsSeen f.name →
      storeGet c'.store f.id = storeGet c.store f.id ∧
      getCount c'.flagsSeen f.name = getCount c.flagsSeen f.name) := by
  constructor
  · intro s hzero hs hmem
    exact envEntries_fallback_once env f s hs henv c.flagsByName c c' hnames
      hzero hmem hrun
  · intro hpos
    have hids : ∀ e ∈ c.flagsByName, e.2.name ≠ f.name → e.2.id ≠ f.id := by
      intro e he hne
      have h := hnames e he
      rwa [if_neg hne] at h
    exact envEntries_preserve env f c.flagsByName c c' hids hpos hrun

theorem env_fallback_once_w :
    storeGet cenvEnd.store envFlag.id =
        storeGet cenvStart.store envFlag.id ++ ["val"] ∧
      getCount cenvEnd.flagsSeen envFlag.name = 1 :=
  (env_fallback_once [("ETEST", "val")] envFlag cenvStart cenvEnd (by decide)
      (by decide) rfl).1 "val" rfl rfl (by decide)

/-- Claim C2, amended: environment fallback is applied to the accumulated
flag lookup table — the final command's flags and those of every ancestor
scope entered — not only to flags the final command declares: over the
`c2root` tree, resolving `sub` still fills the ancestor-declared `--cache`
from `CACHE` whenever the variable is present and the flag is unseen. -/
theorem env_fallback_inherited (env : List (String × String)) (s : String)
    (hs : alookup env "CACHE" = some s) :
    parseLog (Parse c2root env ["sub"]) 2 = some [s] ∧
      parseCmdName (Parse c2root env ["sub"]) = some "sub" := by
  have hloop :
      parseLoop (newArgParser c2root ["sub"]).tokens.length
        (newArgParser c2root ["sub"]) = .ok c2mid := rfl
  have henvrun : parseEnvVars env c2mid = .ok (c2end s) := by
    rw [parseEnvVars]
    rw [show c2mid.flagsByName = [("--cache", cacheFlag)] from rfl]
    rw [parseEnvEntries]
    rw [if_neg (show ¬cacheFlag.EnvVar = "" by decide)]
    rw [if_neg (show ¬0 < getCount c2mid.flagsSeen cacheFlag.name by decide)]
    rw [show alookup env cacheFlag.EnvVar = some s from hs]
    simp only [observe, setFlag]
    rw [if_pos (show valueSetOk cacheFlag.kind s = true from rfl)]
    rfl
  have hparse : Parse c2root env ["sub"] = .ok (c2end s) := by
    simp only [Parse]
    rw [hloop]
    simp only []
    rw [henvrun]
    rfl
  rw [hparse]
  exact ⟨rfl, rfl⟩

theorem env_fallback_inherited_w :
    alookup [("CACHE", "on")] "CACHE" = some "on" ∧
      (parseLog (Parse c2root [("CACHE", "on")] ["sub"]) 2 = some ["on"] ∧
        parseCmdName (Parse c2root [("CACHE", "on")] ["sub"]) = some "sub") :=
  ⟨rfl, env_fallback_inherited [("CACHE", "on")] "on" rfl⟩

/-- Claim C10: `Var` (and so every typed helper delegating to it) moves a
one-character name into the short name and leaves the long name empty; the
flag is registered only under its single-dash key, so `-x` matches and
`--x` is rejected as an unrecognized argument. -/
theorem var_short_name (kind : SinkKind) (id : Nat) (name usage : String)
    (h : name.length = 1) :
    (Var kind id name usage).ShortName = name ∧
      (Var kind id name usage).Name = "" ∧
      alookup (registerFlag [] (Var kind id name usage)) ("-" ++ name) =
        some (Var kind id name usage) ∧
      alookup (registerFlag [] (Var kind id name usage)) ("--" ++ name) = none ∧
      (newArgParser (c10cmd kind id name usage) []).flagsByName =
        registerFlag [] (Var kind id name usage) ∧
      dispatchRegular (newArgParser (c10cmd kind id name usage) [])
          ("--" ++ name) = .error (.unrecognizedArgument ("--" ++ name)) := by
  have hne : name ≠ "" := by
    intro he
    rw [he] at h
    simp at h
  have hvs : (Var kind id name usage).ShortName = name := by
    simp [Var, h]
  have hvn : (Var kind id name usage).Name = "" := by
    simp [Var, h]
  have hreg : registerFlag [] (Var kind id name usage) =
      [("-" ++ name, Var kind id name usage)] := by
    rw [registerFlag]
    simp only [hvn, hvs, ne_eq, not_true_eq_false, if_false, hne,
      not_false_eq_true, if_true]
    rfl
  have hkey : ("-" ++ name) ≠ ("--" ++ name) := by
    intro he
    have hlen := congrArg String.length he
    rw [String.length_append, String.length_append] at hlen
    rw [show ("-" : String).length = 1 from rfl,
      show ("--" : String).length = 2 from rfl] at hlen
    omega
  have hsome : alookup (registerFlag [] (Var kind id name usage))
      ("-" ++ name) = some (Var kind id name usage) := by
    rw [hreg, alookup, if_pos rfl]
  have hnone : alookup (registerFlag [] (Var kind id name usage))
      ("--" ++ name) = none := by
    rw [hreg, alookup, if_neg hkey]
    rfl
  have hfb : (newArgParser (c10cmd kind id name usage) []).flagsByName =
      registerFlag [] (Var kind id name usage) := rfl
  refine ⟨hvs, hvn, hsome, hnone, hfb, ?_⟩
  simp only [dispatchRegular]
  rw [hfb, hnone]

theorem var_short_name_w :
    (Var .stringSink 7 "x" "").ShortName = "x" ∧
      (Var .stringSink 7 "x" "").Name = "" ∧
      alookup (registerFlag [] (Var .stringSink 7 "x" "")) "-x" =
        some (Var .stringSink 7 "x" "") ∧
      alookup (registerFlag [] (Var .stringSink 7 "x" "")) "--x" = none :=
  have hall := var_short_name .stringSink 7 "x" "" (by decide)
  ⟨hall.1, hall.2.1, hall.2.2.1, hall.2.2.2.1⟩

theorem c9_normalize :
    ∀ tokens : List String, (∀ t ∈ tokens, t = "-f" ∨ t = "--foo") →
      normalize tokens false = tokens := by
  intro tokens
  induction tokens with
  | nil =>
    intro _
    rfl
  | cons t rest ih =>
    intro h
    have hrest := ih (fun x hx => h x (List.mem_cons_of_mem t hx))
    rcases h t (List.mem_cons_self t rest) with rfl | rfl
    · rw [show normalize ("-f" :: rest) false = "-f" :: normalize rest false
        from rfl, hrest]
    · rw [show normalize ("--foo" :: rest) false =
        "--foo" :: normalize rest false from rfl, hrest]

theorem c9_loop (mi ma : Int) :
    ∀ (tokens : List String) (m : List (String × Nat)) (σ : Store),
      (∀ t ∈ tokens, t = "-f" ∨ t = "--foo") →
      ∃ m' σ',
        parseLoop tokens.length (c9st mi ma tokens m σ) =
          .ok (c9st mi ma [] m' σ') ∧
        getCount m' "foo" = getCount m "foo" + tokens.length ∧
        storeGet σ' 0 = storeGet σ 0 ++ List.replicate tokens.length "true" := by
  intro tokens
  induction tokens with
  | nil =>
    intro m σ _
    exact ⟨m, σ, rfl, by simp, by simp⟩
  | cons t rest ih =>
    intro m σ h
    obtain ⟨m', σ', hl, hc, hs⟩ :=
      ih (ainsert m "foo" (getCount m "foo" + 1)) (storePush σ 0 "true")
        (fun x hx => h x (List.mem_cons_of_mem t hx))
    refine ⟨m', σ', ?_, ?_, ?_⟩
    · rcases h t (List.mem_cons_self t rest) with rfl | rfl
      · rw [show parseLoop (("-f" :: rest) : List String).length
            (c9st mi ma ("-f" :: rest) m σ) =
          parseLoop rest.length
            (c9st mi ma rest (ainsert m "foo" (getCount m "foo" + 1))
              (storePush σ 0 "true")) from rfl, hl]
      · rw [show parseLoop (("--foo" :: rest) : List String).length
            (c9st mi ma ("--foo" :: rest) m σ) =
          parseLoop rest.length
            (c9st mi ma rest (ainsert m "foo" (getCount m "foo" + 1))
              (storePush σ 0 "true")) from rfl, hl]
    · rw [hc, getCount_ainsert, if_pos rfl]
      simp only [List.length_cons]
      omega
    · rw [hs, storeGet_storePush, if_pos rfl]
      simp only [List.length_cons, List.replicate_succ, List.append_assoc,
        List.singleton_append]

theorem c9_env_skip (env : List (String × String)) (mi ma : Int)
    (m' : List (String × Nat)) (σ' : Store)
    (hpos : 0 < getCount m' "foo") :
    parseEnvVars env (c9st mi ma [] m' σ') = .ok (c9st mi ma [] m' σ') := by
  rw [show parseEnvVars env (c9st mi ma [] m' σ') =
    parseEnvEntries env (c9binds mi ma) (c9st mi ma [] m' σ') from rfl]
  refine envEntries_all_skip env (c9binds mi ma) (c9st mi ma [] m' σ') ?_
  intro e he
  rcases List.mem_cons.mp he with rfl | he2
  · exact Or.inr (Or.inl hpos)
  · rcases List.mem_cons.mp he2 with rfl | he3
    · exact Or.inr (Or.inl hpos)
    · simp at he3

theorem c9_env_fire (env : List (String × String)) (mi ma : Int)
    (m' : List (String × Nat)) (σ' : Store) (s : String)
    (h0 : getCount m' "foo" = 0)
    (hs : alookup env "FOO" = some s)
    (hok : (parseBool s).isSome = true) :
    parseEnvVars env (c9st mi ma [] m' σ') =
      .ok (c9st mi ma [] (ainsert m' "foo" 1) (storePush σ' 0 s)) := by
  have henv1 : ¬(fooFlag mi ma).EnvVar = "" := by
    intro hc
    simp [fooFlag] at hc
  have hnotpos : ¬0 < getCount (c9st mi ma [] m' σ').flagsSeen
      (fooFlag mi ma).name := by
    rw [show (c9st mi ma [] m' σ').flagsSeen = m' from rfl,
      show (fooFlag mi ma).name = "foo" from rfl, h0]
    omega
  rw [show parseEnvVars env (c9st mi ma [] m' σ') =
    parseEnvEntries env (c9binds mi ma) (c9st mi ma [] m' σ') from rfl]
  rw [c9binds, parseEnvEntries]
  rw [if_neg henv1, if_neg hnotpos]
  rw [show alookup env (fooFlag mi ma).EnvVar = some s from hs]
  simp only [observe, setFlag, c9st]
  rw [if_pos (show valueSetOk (fooFlag mi ma).kind s = true from hok)]
  simp only
  rw [parseEnvEntries]
  rw [if_neg henv1]
  rw [if_pos (show 0 < getCount
    (ainsert m' (fooFlag mi ma).name (getCount m' (fooFlag mi ma).name + 1))
    (fooFlag mi ma).name by
      rw [show (fooFlag mi ma).name = "foo" from rfl, getCount_ainsert,
        if_pos rfl]
      omega)]
  rw [parseEnvEntries]
  rw [show (fooFlag mi ma).name = "foo" from rfl,
    show (fooFlag mi ma).id = 0 from rfl, h0]

theorem c9_check (mi ma : Int) (m' : List (String × Nat)) (σ' : Store) :
    checkNArgs (c9st mi ma [] m' σ') =
      (if 0 < mi ∧ (getCount m' "foo" : Int) < mi then
        some (.missingArgument "--foo")
      else if 0 < ma ∧ ma < (getCount m' "foo" : Int) then
        some (.tooMany "--foo")
      else none) := rfl

/-- Claim C9: a flag declared with both a long and a short name keeps a
single occurrence counter keyed by the flag itself: occurrences supplied via
`-f`, via `--foo` and via environment fallback all accumulate into one
count, and the reconciler's arity check is applied to that combined total,
never to the two spellings separately. -/
theorem shared_counter (mi ma : Int) (tokens : List String)
    (env : List (String × String))
    (htok : ∀ t ∈ tokens, t = "-f" ∨ t = "--foo")
    (henv : ∀ s, alookup env "FOO" = some s → (parseBool s).isSome = true) :
    seenOrErr (Parse (c9cmd mi ma) env tokens) "foo" =
      (if 0 < mi ∧ (c9total env tokens : Int) < mi then
        .error (.missingArgument "--foo")
      else if 0 < ma ∧ ma < (c9total env tokens : Int) then
        .error (.tooMany "--foo")
      else .ok (c9total env tokens)) := by
  obtain ⟨m', σ', hloop, hcount, hstore⟩ := c9_loop mi ma tokens [] [] htok
  have hstart : newArgParser (c9cmd mi ma) tokens = c9st mi ma tokens [] [] := by
    rw [show newArgParser (c9cmd mi ma) tokens =
      c9st mi ma (normalize tokens false) [] [] from rfl,
      c9_normalize tokens htok]
  simp only [Parse]
  rw [hstart]
  rw [show (c9st mi ma tokens [] []).tokens.length = tokens.length from rfl]
  rw [hloop]
  simp only []
  by_cases hlen : tokens.length = 0
  · have h0 : getCount m' "foo" = 0 := by
      rw [hcount, hlen]
      rfl
    cases hse : alookup env "FOO" with
    | none =>
      have htot : c9total env tokens = 0 := by
        rw [c9total, if_neg (by omega : ¬tokens.length ≠ 0), hse]
      have hskip : parseEnvVars env (c9st mi ma [] m' σ') =
          .ok (c9st mi ma [] m' σ') := by
        rw [show parseEnvVars env (c9st mi ma [] m' σ') =
          parseEnvEntries env (c9binds mi ma) (c9st mi ma [] m' σ') from rfl]
        refine envEntries_all_skip env (c9binds mi ma) _ ?_
        intro e he
        rcases List.mem_cons.mp he with rfl | he2
        · exact Or.inr (Or.inr hse)
        · rcases List.mem_cons.mp he2 with rfl | he3
          · exact Or.inr (Or.inr hse)
          · simp at he3
      rw [hskip]
      simp only []
      rw [c9_check, h0, htot]
      by_cases hA : 0 < mi ∧ ((0 : Nat) : Int) < mi
      · rw [if_pos hA, if_pos hA]
        rfl
      · rw [if_neg hA, if_neg hA]
        by_cases hB : 0 < ma ∧ ma < ((0 : Nat) : Int)
        · rw [if_pos hB, if_pos hB]
          rfl
        · rw [if_neg hB, if_neg hB]
          simp only [seenOrErr]
          rw [show (c9st mi ma [] m' σ').flagsSeen = m' from rfl, h0]
    | some s =>
      have htot : c9total env tokens = 1 := by
        rw [c9total, if_neg (by omega : ¬tokens.length ≠ 0), hse]
      have hfire := c9_env_fire env mi ma m' σ' s h0 hse (henv s hse)
      rw [hfire]
      simp only []
      rw [c9_check]
      have hg1 : getCount (ainsert m' "foo" 1) "foo" = 1 := by
        rw [getCount_ainsert, if_pos rfl]
      rw [hg1, htot]
      by_cases hA : 0 < mi ∧ ((1 : Nat) : Int) < mi
      · rw [if_pos hA, if_pos hA]
        rfl
      · rw [if_neg hA, if_neg hA]
        by_cases hB : 0 < ma ∧ ma < ((1 : Nat) : Int)
        · rw [if_pos hB, if_pos hB]
          rfl
        · rw [if_neg hB, if_neg hB]
          simp only [seenOrErr]
          rw [show (c9st mi ma [] (ainsert m' "foo" 1)
            (storePush σ' 0 s)).flagsSeen = ainsert m' "foo" 1 from rfl, hg1]
  · have hgc : getCount m' "foo" = tokens.length := by
      rw [hcount]
      simp [getCount, alookup]
    have hpos : 0 < getCount m' "foo" := by
      rw [hgc]
      omega
    have htot : c9total env tokens = tokens.length := by
      rw [c9total, if_pos hlen]
    rw [c9_env_skip env mi ma m' σ' hpos]
    simp only []
    rw [c9_check, hgc, htot]
    by_cases hA : 0 < mi ∧ ((tokens.length : Nat) : Int) < mi
    · rw [if_pos hA, if_pos hA]
      rfl
    · rw [if_neg hA, if_neg hA]
      by_cases hB : 0 < ma ∧ ma < ((tokens.length : Nat) : Int)
      · rw [if_pos hB, if_pos hB]
        rfl
      · rw [if_neg hB, if_neg hB]
        simp only [seenOrErr]
        rw [show (c9st mi ma [] m' σ').flagsSeen = m' from rfl, hgc]

theorem shared_counter_w :
    (∀ t ∈ (["-f", "--foo"] : List String), t = "-f" ∨ t = "--foo") ∧
      seenOrErr (Parse (c9cmd 0 3) [] ["-f", "--foo"]) "foo" =
        (if 0 < (0 : Int) ∧ (c9total [] ["-f", "--foo"] : Int) < 0 then
          .error (.missingArgument "--foo")
        else if 0 < (3 : Int) ∧ 3 < (c9total [] ["-f", "--foo"] : Int) then
          .error (.tooMany "--foo")
        else .ok (c9total [] ["-f", "--foo"])) :=
  ⟨by decide, shared_counter 0 3 ["-f", "--foo"] [] (by decide)
    (fun s hcon => by simp [alookup] at hcon)⟩

end Xflags
